import Mathlib

/-!
Verification development for the `generateData.js` catalog generator.

The script walks a tree of PDF files, classifies each file from its
root-relative path, and emits per-semester catalogs in two modes:
a flat exam-paper catalog (with a merge against the previously written
catalog) and a hierarchical syllabus catalog.  The definitions below are
a shallow embedding of that script: paths are lists of segments, strings
are Lean strings, JavaScript truthiness and the specific regexes are
modelled explicitly, and the filesystem inputs (file list, sidecar
contents, previously written catalogs) are passed as explicit arguments.
-/

/-- JavaScript word character for `\b` boundaries: `[A-Za-z0-9_]`. -/
def isWordChar (c : Char) : Bool := c.isAlphanum || c = '_'

/-- JavaScript whitespace (`\s`) restricted to the ASCII characters that occur here. -/
def isJsSpace (c : Char) : Bool :=
  c = ' ' || c = '\t' || c = '\n' || c = '\r' || c = '\x0b' || c = '\x0c'

/-- Separator class `[\s._-]` used by the semester and unit regexes. -/
def isSemSep (c : Char) : Bool := isJsSpace c || c = '.' || c = '_' || c = '-'

/-- Case-insensitive character comparison (ASCII), as the `i` regex flag. -/
def lcEq (a b : Char) : Bool := a.toLower = b.toLower

/-- Maximal leading digit run of a character list, with the remainder. -/
def takeDigitRun : List Char → List Char × List Char
  | [] => ([], [])
  | c :: cs =>
    if c.isDigit then
      let r := takeDigitRun cs
      (c :: r.1, r.2)
    else ([], c :: cs)

/-- Digit run to a number, as `parseInt(d, 10)`. -/
def digitsToNat (d : List Char) : Nat :=
  d.foldl (fun a c => a * 10 + (c.toNat - '0'.toNat)) 0

/-- Attempt of `/sem[\s._-]*?(\d+)/i` anchored at the head of the list:
`sem` case-insensitively, then the (unique) run of separator characters,
then at least one digit; the captured digit run is returned.  The lazy
quantifier is equivalent to skipping the maximal separator run because
digits are not separators. -/
def semDigitsAt (l : List Char) : Option (List Char) :=
  match l with
  | s :: e :: m :: rest =>
    if lcEq s 's' && lcEq e 'e' && lcEq m 'm' then
      match takeDigitRun (rest.dropWhile isSemSep) with
      | ([], _) => none
      | (d, _) => some d
    else none
  | _ => none

/-- Leftmost match of `/sem[\s._-]*?(\d+)/i` anywhere in the list. -/
def semDigitsSearch : List Char → Option (List Char)
  | [] => none
  | c :: cs =>
    match semDigitsAt (c :: cs) with
    | some d => some d
    | none => semDigitsSearch cs

/-- Global replacement of whitespace runs by a single underscore,
as `seg.replace(/\s+/g, '_')`.  The boolean flag records whether the
previous character was part of a whitespace run. -/
def wsToUnderscore : Bool → List Char → List Char
  | _, [] => []
  | inRun, c :: cs =>
    if isJsSpace c then
      if inRun then wsToUnderscore true cs else '_' :: wsToUnderscore true cs
    else c :: wsToUnderscore false cs

/-- ASCII lowercasing of a string, as `String.prototype.toLowerCase`. -/
def jsToLower (s : String) : String := String.mk (s.data.map Char.toLower)

/-- `normalizeSem` from generateData.js: empty segment gives the unknown
sentinel; a segment containing `sem` + separators + digits gives
`sem_<digits>` lowercased; otherwise `sem_` plus the whitespace-collapsed,
lowercased segment. -/
def normalizeSem (seg : String) : String :=
  if seg = "" then "sem_unknown"
  else
    match semDigitsSearch seg.data with
    | some d => jsToLower ("sem_" ++ String.mk d)
    | none => "sem_" ++ jsToLower (String.mk (wsToUnderscore false seg.data))

/-- Separator-run-then-digits step shared by the two alternatives of the
unit regex: `[\s._-]*?(\d+)` applied to the remainder. -/
def unitDigitsFrom (l : List Char) : Option (List Char) :=
  match takeDigitRun (l.dropWhile isSemSep) with
  | ([], _) => none
  | (d, _) => some d

/-- `normalizeUnit` from generateData.js: `/^(?:Unit|U)[\s._-]*?(\d+)/i`.
The `Unit` alternative is tried first; when the first four characters are
`unit` case-insensitively and no separator-run-plus-digits follows, the
`U` alternative also fails (the second character `n` is neither a
separator nor a digit), so no backtracking case is needed. -/
def normalizeUnit (seg : String) : Option Nat :=
  match seg.data with
  | u :: n :: i :: t :: rest =>
    if lcEq u 'u' && lcEq n 'n' && lcEq i 'i' && lcEq t 't' then
      (unitDigitsFrom rest).map digitsToNat
    else if lcEq u 'u' then (unitDigitsFrom (n :: i :: t :: rest)).map digitsToNat
    else none
  | u :: rest =>
    if lcEq u 'u' then (unitDigitsFrom rest).map digitsToNat else none
  | [] => none

/-- The test `/^(?:Unit|U)[\s._-]*?\d+/i.test(p)` used at the findIndex
call: same pattern as `normalizeUnit`, so it succeeds iff that returns a
value. -/
def unitSegTest (s : String) : Bool := (normalizeUnit s).isSome

/-- The test `/^sem/i.test(p)`: segment starting with `sem` case-insensitively. -/
def startsWithSemCI (s : String) : Bool :=
  match s.data with
  | a :: b :: c :: _ => lcEq a 's' && lcEq b 'e' && lcEq c 'm'
  | _ => false

/-- Strip a trailing `.pdf` extension case-insensitively, as `/\.(pdf)$/i`. -/
def stripPdfExt (l : List Char) : List Char :=
  match l.reverse with
  | f :: d :: p :: dot :: rest =>
    if lcEq f 'f' && lcEq d 'd' && lcEq p 'p' && dot = '.' then rest.reverse else l
  | _ => l

/-- Attempt of `/\b(19|20)\d{2}\b/` at the head of the list, given the
character immediately before the current position (`none` at the start of
the string).  Returns the four digits and the remainder. -/
def yearAt (prev : Option Char) (l : List Char) : Option (List Char × List Char) :=
  match l with
  | a :: b :: c :: d :: rest =>
    let prevOk := match prev with | none => true | some p => !isWordChar p
    let afterOk := match rest with | [] => true | x :: _ => !isWordChar x
    if prevOk && ((a = '1' && b = '9') || (a = '2' && b = '0'))
        && c.isDigit && d.isDigit && afterOk then
      some ([a, b, c, d], rest)
    else none
  | _ => none

/-- Replacement of the first match of `/\b(19|20)\d{2}\b/` by the empty
string (the regex has no `g` flag, so only the first match goes). -/
def removeFirstYear (prev : Option Char) : List Char → List Char
  | [] => []
  | x :: xs =>
    match yearAt prev (x :: xs) with
    | some (_, rest) => rest
    | none => x :: removeFirstYear (some x) xs

/-- First match of `/\b(19|20)\d{2}\b/` as a number, as the year guess. -/
def findFirstYear (prev : Option Char) : List Char → Option Nat
  | [] => none
  | x :: xs =>
    match yearAt prev (x :: xs) with
    | some (ds, _) => some (digitsToNat ds)
    | none => findFirstYear (some x) xs

/-- Global replacement of `[_\-]+` runs by a single space. -/
def uhCollapse : Bool → List Char → List Char
  | _, [] => []
  | inRun, c :: cs =>
    if c = '_' || c = '-' then
      if inRun then uhCollapse true cs else ' ' :: uhCollapse true cs
    else c :: uhCollapse false cs

/-- Number of leading dots and the remainder after them. -/
def splitDots : List Char → Nat × List Char
  | [] => (0, [])
  | c :: cs =>
    if c = '.' then
      let r := splitDots cs
      (r.1 + 1, r.2)
    else (0, c :: cs)

/-- Lookbehind `(?<!\d)`: the previous character must not be a digit. -/
def prevNotDigit : Option Char → Bool
  | none => true
  | some c => !c.isDigit

/-- Global replacement of `/(?<!\d)\.+(?!\d)/g` by a single space, scanning
left to right with the character before the current position carried along.
At a dot with a non-digit before it, the greedy `\.+` takes the whole run;
if a digit follows the run the engine backtracks one dot (possible only
when the run has length at least two, the lookahead then seeing a dot);
matching resumes at the end of the match.  The first argument is fuel for
structural recursion: every step consumes at least one character, so the
remaining list is never longer than the fuel when started at the list
length, and the fuel-exhausted branch is unreachable. -/
def dotScanF : Nat → Option Char → List Char → List Char
  | 0, _, l => l
  | _ + 1, _, [] => []
  | fuel + 1, prev, c :: cs =>
    if c = '.' && prevNotDigit prev then
      match (splitDots cs).2 with
      | [] => [' ']
      | a :: rest2 =>
        if a.isDigit then
          if (splitDots cs).1 = 0 then c :: dotScanF fuel (some c) cs
          else ' ' :: dotScanF fuel (some '.') ('.' :: a :: rest2)
        else ' ' :: dotScanF fuel (some '.') (a :: rest2)
    else c :: dotScanF fuel (some c) cs

/-- The dot replacement pass, started with exactly enough fuel. -/
def dotScan (prev : Option Char) (l : List Char) : List Char :=
  dotScanF l.length prev l

/-- Global replacement of `\s+` runs by a single space. -/
def wsCollapse : Bool → List Char → List Char
  | _, [] => []
  | inRun, c :: cs =>
    if isJsSpace c then
      if inRun then wsCollapse true cs else ' ' :: wsCollapse true cs
    else c :: wsCollapse false cs

/-- `String.prototype.trim` (on the ASCII whitespace occurring here). -/
def jsTrim (l : List Char) : List Char :=
  ((l.dropWhile isJsSpace).reverse.dropWhile isJsSpace).reverse

/-- `cleanTitle` from generateData.js: strip the `.pdf` extension, remove
the first word-bounded `(19|20)\d\d` token, collapse `[_\-]+` runs and
dot runs not between digits into single spaces, collapse whitespace, trim. -/
def cleanTitle (name : String) : String :=
  String.mk (jsTrim (wsCollapse false (dotScan none
    (uhCollapse false (removeFirstYear none (stripPdfExt name.data))))))

/-- Sidecar override record: the optional fields read from `<path>.json`.
A field value of `none` models an absent field; JavaScript falsy values
of present fields (empty string, zero year) are handled at use sites. -/
structure Sidecar where
  title : Option String := none
  description : Option String := none
  year : Option Int := none
  subject : Option String := none
deriving Repr, DecidableEq

/-- `readSidecar` from generateData.js, with the filesystem and JSON
parser abstracted: `content` is the sidecar file's text (`none` when the
file does not exist) and `parse` the JSON parser, returning `none` both
when parsing throws (the catch branch) and when it yields a falsy value.
The function is total: no failure propagates to the caller. -/
def readSidecar (parse : String → Option Sidecar) (content : Option String) : Option Sidecar :=
  match content with
  | none => none
  | some s => parse s

/-- JavaScript `a || b` for strings: empty string is falsy. -/
def jsOrS (a b : String) : String := if a = "" then b else a

/-- JavaScript `(side && side.field) || fallback` for string fields. -/
def jsFieldOr (side : Option Sidecar) (get : Sidecar → Option String) (fallback : String) : String :=
  match side with
  | none => fallback
  | some sc =>
    match get sc with
    | some v => if v = "" then fallback else v
    | none => fallback

/-- JavaScript `(side && side.year) || fallback` for the year field:
`0`, `null` and `undefined` are falsy. -/
def jsYearOr (side : Option Sidecar) (fallback : Option Int) : Option Int :=
  match side with
  | none => fallback
  | some sc =>
    match sc.year with
    | some y => if y = 0 then fallback else some y
    | none => fallback

/-- JavaScript `a || b` where `a` is an optional string (element lookup). -/
def jsOrStr (a : Option String) (b : String) : String :=
  match a with
  | some s => if s = "" then b else s
  | none => b

/-- Truthiness of an optional string: present and non-empty. -/
def truthy (o : Option String) : Bool :=
  match o with
  | some s => s ≠ ""
  | none => false

/-- JavaScript indexing `parts[i]` with a possibly negative index. -/
def jsGetStr (parts : List String) (i : Int) : Option String :=
  if i < 0 then none else parts[i.toNat]?

/-- `String.prototype.replace(/_/g, ' ')`. -/
def underscoresToSpaces (s : String) : String :=
  String.mk (s.data.map (fun c => if c = '_' then ' ' else c))

/-- The root-relative path string rebuilt from its segments. -/
def relOf (parts : List String) : String := String.intercalate "/" parts

/-- `rel.replace(/^\/+/, '')`: strip leading slashes. -/
def stripLeadingSlashes (s : String) : String :=
  String.mk (s.data.dropWhile (· = '/'))

/-- A flat-mode catalog entry, the record pushed per file in exam-paper mode. -/
structure FlatEntry where
  subject : String
  title : String
  year : Option Int
  file : String
  description : String
deriving Repr, DecidableEq

/-- `parts.find(p => /^sem/i.test(p)) || parts[1] || 'sem_unknown'`. -/
def flatSemSeg (parts : List String) : String :=
  jsOrStr (parts.find? startsWithSemCI) (jsOrStr parts[1]? "sem_unknown")

/-- `parts.indexOf(semSeg)` as in JavaScript: first index, `-1` if absent. -/
def jsIndexOf (parts : List String) (x : String) : Int :=
  match parts.findIdx? (· == x) with
  | some i => (i : Int)
  | none => -1

/-- The semester key a file is grouped under in exam-paper mode. -/
def flatSemKey (parts : List String) : String := normalizeSem (flatSemSeg parts)

/-- The flat-mode entry built for one file (lines 207-229 of
generateData.js), from its path segments and resolved sidecar. -/
def flatEntryOf (parts : List String) (side : Option Sidecar) : FlatEntry :=
  let rel := relOf parts
  let filename := parts.getLastD ""
  let semSeg := flatSemSeg parts
  let semIndex := jsIndexOf parts semSeg
  let subject := jsOrStr (jsGetStr parts (semIndex + 1)) "Unknown"
  let year : Option Int := (findFirstYear none filename.data).map Int.ofNat
  let titleGuess := cleanTitle filename
  { subject := jsFieldOr side (fun sc => sc.subject) (underscoresToSpaces subject)
    title := jsFieldOr side (fun sc => sc.title) (jsOrS titleGuess filename)
    year := jsYearOr side year
    file := stripLeadingSlashes rel
    description := jsFieldOr side (fun sc => sc.description) "" }

/-- Push an entry onto the per-semester grouping, preserving first-insertion
key order (the `grouped[semKey] = grouped[semKey] || []; push(entry)` idiom;
`sem_*` keys are not array indices, so object key order is insertion order). -/
def pushGrouped (g : List (String × List FlatEntry)) (k : String) (e : FlatEntry) :
    List (String × List FlatEntry) :=
  match g with
  | [] => [(k, [e])]
  | (k1, es) :: rest =>
    if k1 = k then (k1, es ++ [e]) :: rest else (k1, es) :: pushGrouped rest k e

/-- The exam-paper-mode grouping over the walked file list: each file is
its path segments paired with its resolved sidecar. -/
def buildGrouped (files : List (List String × Option Sidecar)) :
    List (String × List FlatEntry) :=
  files.foldl (fun g fp => pushGrouped g (flatSemKey fp.1) (flatEntryOf fp.1 fp.2)) []

/-- Total number of entries across all semester groups. -/
def totalEntries (g : List (String × List FlatEntry)) : Nat :=
  (g.map (fun p => p.2.length)).sum

/-- The `Map` lookup keyed by `file` over the previously written catalog;
the `Map` constructor keeps the last entry for a duplicated key. -/
def lookupFile (existing : List FlatEntry) (f : String) : Option FlatEntry :=
  existing.reverse.find? (fun e => e.file == f)

/-- JavaScript `a || b` for optional year values. -/
def jsOrYear (a b : Option Int) : Option Int :=
  match a with
  | some y => if y = 0 then b else some y
  | none => b

/-- The per-entry merge against the previous catalog (lines 240-252):
keep the fresh entry, overriding title, description, year and subject
with the previous values when those are truthy. -/
def mergeOne (existing : List FlatEntry) (e : FlatEntry) : FlatEntry :=
  match lookupFile existing e.file with
  | none => e
  | some ex =>
    { e with
      title := jsOrS ex.title e.title
      description := jsOrS ex.description e.description
      year := jsOrYear ex.year e.year
      subject := jsOrS ex.subject e.subject }

/-- `entries.map(e => ...)`: merge every fresh entry against the previous catalog. -/
def mergeEntries (fresh existing : List FlatEntry) : List FlatEntry :=
  fresh.map (mergeOne existing)

/-- Three-valued string comparison standing in for `localeCompare`. -/
def strCmp (a b : String) : Int :=
  match compare a b with
  | .lt => -1
  | .eq => 0
  | .gt => 1

/-- `b.year || 0`: year value with null (and zero) giving zero. -/
def yearVal (y : Option Int) : Int :=
  match y with
  | some v => v
  | none => 0

/-- The flat-mode sort comparator: descending year then ascending title. -/
def cmpEntries (a b : FlatEntry) : Int :=
  let d := yearVal b.year - yearVal a.year
  if d ≠ 0 then d else strCmp a.title b.title

/-- Insertion into a sorted list, placing the new element before the first
element it does not compare after (ties keep the new element first, which
together with `stableSort` processing order gives stability). -/
def insertSorted (cmp : α → α → Int) (x : α) : List α → List α
  | [] => [x]
  | y :: ys => if cmp x y ≤ 0 then x :: y :: ys else y :: insertSorted cmp x ys

/-- Stable comparator sort modelling `Array.prototype.sort`. -/
def stableSort (cmp : α → α → Int) : List α → List α
  | [] => []
  | x :: xs => insertSorted cmp x (stableSort cmp xs)

/-- The flat catalog sort of line 254. -/
def sortEntries (l : List FlatEntry) : List FlatEntry := stableSort cmpEntries l

/-- The flat-mode merge-and-write phase (lines 233-257): for each semester
of the current grouping, merge its fresh entries against the previously
written catalog for that key (`prior`, with `none` covering both a missing
file and a parse failure) and sort.  The returned association list is
exactly the set of files written, in write order. -/
def writeFlat (grouped : List (String × List FlatEntry))
    (prior : String → Option (List FlatEntry)) : List (String × List FlatEntry) :=
  grouped.map (fun p => (p.1, sortEntries (mergeEntries p.2 ((prior p.1).getD []))))

/-- The result of syllabus-mode path classification for one file:
semester key, subject, unit number, and optional category.  A file whose
classification yields no unit number is skipped (`unitNum === null` check
at line 108), so the classifier returns an `Option`. -/
structure SylClass where
  semKey : String
  subject : String
  unitNum : Nat
  category : Option String
deriving Repr, DecidableEq

/-- `parts.findIndex(p)` as in JavaScript: `-1` when nothing matches. -/
def jsFindIdx (p : String → Bool) (parts : List String) : Int :=
  match parts.findIdx? p with
  | some i => (i : Int)
  | none => -1

/-- `parts.slice(a, b)` for the non-negative bounds arising here. -/
def sliceInt (l : List String) (a b : Int) : List String :=
  (l.take b.toNat).drop a.toNat

/-- `slice(..).join(' ').replace(/_/g, ' ')`: the category text. -/
def catJoin (segs : List String) : String :=
  underscoresToSpaces (String.intercalate " " segs)

/-- Syllabus-mode classification of one file path (lines 63-108 of
generateData.js), split into its components.  `sylSemIndex` is
`parts.findIndex(p => /^sem/i.test(p))` (line 75). -/
def sylSemIndex (parts : List String) : Int := jsFindIdx startsWithSemCI parts

/-- The semester key of syllabus-mode classification (lines 69 and 75-77). -/
def sylSemKey (parts : List String) : String :=
  if sylSemIndex parts = -1 then "sem_unknown"
  else normalizeSem ((jsGetStr parts (sylSemIndex parts)).getD "")

/-- The subject of syllabus-mode classification (lines 70 and 79). -/
def sylSubject (parts : List String) : String :=
  if sylSemIndex parts ≠ -1 then
    match jsGetStr parts (sylSemIndex parts + 1) with
    | some s => if s = "" then "Unknown" else underscoresToSpaces s
    | none => "Unknown"
  else "Unknown"

/-- `parts.findIndex` over the unit-pattern test (line 83). -/
def sylUnitIndex (parts : List String) : Int := jsFindIdx unitSegTest parts

/-- Unit number and category of syllabus-mode classification (lines 83-106):
with a unit segment anywhere in the path, its parsed number and the joined
segments strictly between subject and unit; with none, the unit-0 default
guarded by a semester segment with a truthy following segment, the category
being the joined segments between subject and filename. -/
def sylUnitCat (parts : List String) : Option Nat × Option String :=
  let semIndex := sylSemIndex parts
  let unitIndex := sylUnitIndex parts
  if unitIndex ≠ -1 then
    let n := normalizeUnit ((jsGetStr parts unitIndex).getD "")
    let cat :=
      if unitIndex > semIndex + 2 then some (catJoin (sliceInt parts (semIndex + 2) unitIndex))
      else none
    (n, cat)
  else if semIndex ≠ -1 ∧ truthy (jsGetStr parts (semIndex + 1)) then
    let fileIndex : Int := (parts.length : Int) - 1
    let cat :=
      if fileIndex > semIndex + 2 then some (catJoin (sliceInt parts (semIndex + 2) fileIndex))
      else none
    (some 0, cat)
  else (none, none)

def classifySyllabus (parts : List String) : Option SylClass :=
  match (sylUnitCat parts).1 with
  | none => none
  | some n =>
    some { semKey := sylSemKey parts, subject := sylSubject parts,
           unitNum := n, category := (sylUnitCat parts).2 }

/-- A syllabus-mode material record. -/
structure Material where
  title : String
  file : String
  description : String
deriving Repr, DecidableEq

/-- The syllabus-mode entry built for one file (lines 110-118). -/
def materialOf (parts : List String) (side : Option Sidecar) : Material :=
  let filename := parts.getLastD ""
  let titleGuess := cleanTitle filename
  { title := jsFieldOr side (fun sc => sc.title) (jsOrS titleGuess filename)
    file := stripLeadingSlashes (relOf parts)
    description := jsFieldOr side (fun sc => sc.description) "" }

/-- The per-unit accumulator value of `syllabusData[sem][subject][unitKey]`. -/
structure UnitData where
  num : Nat
  category : Option String
  materials : List Material
deriving Repr, DecidableEq

/-- `category ? category:::unitNum : unitNum` — the unit grouping key. -/
def unitKeyOf (category : Option String) (n : Nat) : String :=
  if truthy category then (category.getD "") ++ ":::" ++ toString n
  else toString n

/-- One output unit group: `{unit, category, title, materials}`. -/
structure UnitGroupOut where
  unit : Nat
  category : Option String
  title : String
  materials : List Material
deriving Repr, DecidableEq

/-- One output subject block: `{subject, units}`. -/
structure SubjectOut where
  subject : String
  units : List UnitGroupOut
deriving Repr, DecidableEq

/-- Material sort comparator: ascending title (line 149). -/
def cmpMat (a b : Material) : Int := strCmp a.title b.title

/-- The sorted materials of a unit group. -/
def sortMaterials (l : List Material) : List Material := stableSort cmpMat l

/-- The display title of a unit group (lines 151-165): the base title is
the first sorted material's title when materials exist, else `Unit <n>`,
overridden to `Syllabus` when the unit number is 0; a truthy category is
prepended as `<category>: ` unless the base title already starts with it
case-insensitively. -/
def unitDisplayTitle (num : Nat) (category : Option String) (materials : List Material) : String :=
  let sorted := sortMaterials materials
  let base0 :=
    match sorted.head? with
    | some m => m.title
    | none => "Unit " ++ toString num
  let baseTitle := if num = 0 then "Syllabus" else base0
  if truthy category
      && !((jsToLower baseTitle).data.take (category.getD "").length
            == (jsToLower (category.getD "")).data) then
    (category.getD "") ++ ": " ++ baseTitle
  else baseTitle

/-- Unit-group sort comparator (lines 179-188): among two categorized
groups compare category names then unit numbers; a categorized group goes
after an uncategorized one; two uncategorized groups compare by unit. -/
def cmpUnits (a b : UnitGroupOut) : Int :=
  let ca := truthy a.category
  let cb := truthy b.category
  if ca && cb then
    let c := strCmp (a.category.getD "") (b.category.getD "")
    if c ≠ 0 then c else (a.unit : Int) - (b.unit : Int)
  else if ca && !cb then 1
  else if !ca && cb then -1
  else (a.unit : Int) - (b.unit : Int)

/-- Insert a material into a subject's unit map, keyed by the unit key,
appending to an existing group or creating a new one. -/
def pushUnit (units : List (String × UnitData)) (c : SylClass) (m : Material) :
    List (String × UnitData) :=
  match units with
  | [] => [(unitKeyOf c.category c.unitNum,
            { num := c.unitNum, category := c.category, materials := [m] })]
  | (k, d) :: rest =>
    if k = unitKeyOf c.category c.unitNum then
      (k, { d with materials := d.materials ++ [m] }) :: rest
    else (k, d) :: pushUnit rest c m

/-- Insert a material into a semester's subject map. -/
def pushSubject (subs : List (String × List (String × UnitData))) (c : SylClass)
    (m : Material) : List (String × List (String × UnitData)) :=
  match subs with
  | [] => [(c.subject, pushUnit [] c m)]
  | (k, units) :: rest =>
    if k = c.subject then (k, pushUnit units c m) :: rest
    else (k, units) :: pushSubject rest c m

/-- Insert a material into the whole syllabus accumulator. -/
def pushSem (acc : List (String × List (String × List (String × UnitData))))
    (c : SylClass) (m : Material) :
    List (String × List (String × List (String × UnitData))) :=
  match acc with
  | [] => [(c.semKey, pushSubject [] c m)]
  | (k, subs) :: rest =>
    if k = c.semKey then (k, pushSubject subs c m) :: rest
    else (k, subs) :: pushSem rest c m

/-- The output unit list for one subject (lines 145-188): map each unit
group to its output record with sorted materials and display title, then
sort the groups. -/
def buildUnitsList (unitsMap : List (String × UnitData)) : List UnitGroupOut :=
  stableSort cmpUnits (unitsMap.map (fun p =>
    { unit := p.2.num
      category := p.2.category
      title := unitDisplayTitle p.2.num p.2.category p.2.materials
      materials := sortMaterials p.2.materials }))

/-- The output subject list for one semester (lines 143-196). -/
def buildSubjectList (subjectsObj : List (String × List (String × UnitData))) :
    List SubjectOut :=
  stableSort (fun a b => strCmp a.subject b.subject)
    (subjectsObj.map (fun p => { subject := p.1, units := buildUnitsList p.2 }))

/-- The whole syllabus-mode run over the walked file list: classify and
aggregate every file (skipping those with no unit number), then build the
per-semester output lists.  Each pair is one written `syllabus_<sem>.json`. -/
def syllabusRun (files : List (List String × Option Sidecar)) :
    List (String × List SubjectOut) :=
  let data := files.foldl (fun acc fp =>
    match classifySyllabus fp.1 with
    | none => acc
    | some c => pushSem acc c (materialOf fp.1 fp.2)) []
  data.map (fun p => (p.1, buildSubjectList p.2))

/-! ### Helper lemmas -/

/-- The dot run and its remainder partition the list, so `dotScanF` run
with fuel equal to the list length never reaches the fuel-exhausted
branch (every step consumes at least one character). -/
theorem splitDots_len (l : List Char) : (splitDots l).1 + (splitDots l).2.length = l.length := by
  induction l with
  | nil => simp [splitDots]
  | cons c cs ih =>
    by_cases h : c = '.'
    · simp [splitDots, h] at ih ⊢; omega
    · simp [splitDots, h]

theorem find_eq_some_of_unique {α} {p : α → Bool} {l : List α} {m : α}
    (hm : m ∈ l) (hp : p m = true) (hu : ∀ x ∈ l, p x = true → x = m) :
    l.find? p = some m := by
  induction l with
  | nil => cases hm
  | cons a t ih =>
    by_cases ha : p a = true
    · have : a = m := hu a (List.mem_cons_self a t) ha
      rw [List.find?_cons_of_pos t ha, this]
    · have hmt : m ∈ t := by
        rcases List.mem_cons.mp hm with h | h
        · exact absurd (h ▸ hp) ha
        · exact h
      rw [List.find?_cons_of_neg t (by simpa using ha)]
      exact ih hmt (fun x hx hpx => hu x (List.mem_cons_of_mem a hx) hpx)

theorem insertSorted_perm {α} (cmp : α → α → Int) (x : α) (l : List α) :
    List.Perm (insertSorted cmp x l) (x :: l) := by
  induction l with
  | nil => exact List.Perm.refl _
  | cons y ys ih =>
    by_cases h : cmp x y ≤ 0
    · simp only [insertSorted, if_pos h]
      exact List.Perm.refl _
    · simp only [insertSorted, if_neg h]
      exact (ih.cons y).trans (List.Perm.swap x y ys)

theorem stableSort_perm {α} (cmp : α → α → Int) (l : List α) :
    List.Perm (stableSort cmp l) l := by
  induction l with
  | nil => exact List.Perm.refl _
  | cons x xs ih =>
    exact (insertSorted_perm cmp x (stableSort cmp xs)).trans (ih.cons x)

theorem lookupFile_eq_some {l : List FlatEntry} {f : String} {m : FlatEntry}
    (hm : m ∈ l) (hf : m.file = f) (hu : ∀ x ∈ l, x.file = f → x = m) :
    lookupFile l f = some m := by
  unfold lookupFile
  apply find_eq_some_of_unique (List.mem_reverse.mpr hm) (by simp [hf])
  intro x hx hpx
  exact hu x (List.mem_reverse.mp hx) (by simpa using hpx)

theorem mergeOne_file (existing : List FlatEntry) (e : FlatEntry) :
    (mergeOne existing e).file = e.file := by
  unfold mergeOne
  cases lookupFile existing e.file <;> rfl

theorem jsOrS_self (a : String) : jsOrS a a = a := by
  simp [jsOrS]

theorem jsOrS_absorb (a b : String) : jsOrS (jsOrS a b) b = jsOrS a b := by
  by_cases h : a = "" <;> simp [jsOrS, h]

theorem jsOrYear_self (a : Option Int) : jsOrYear a a = a := by
  cases a with
  | none => rfl
  | some y => simp [jsOrYear]

theorem jsOrYear_absorb (a b : Option Int) : jsOrYear (jsOrYear a b) b = jsOrYear a b := by
  cases a with
  | none => exact jsOrYear_self b
  | some y =>
    by_cases h : y = 0
    · have e1 : jsOrYear (some y) b = b := by simp [jsOrYear, h]
      rw [e1, jsOrYear_self]
    · have e1 : jsOrYear (some y) b = some y := by simp [jsOrYear, h]
      rw [e1]
      exact e1

theorem mergeOne_again (l1 l2 : List FlatEntry) (e : FlatEntry)
    (h : lookupFile l2 e.file = some (mergeOne l1 e)) :
    mergeOne l2 e = mergeOne l1 e := by
  cases h1 : lookupFile l1 e.file with
  | none =>
    rw [mergeOne, h1] at h
    rw [mergeOne, h, mergeOne, h1]
    simp [jsOrS_self, jsOrYear_self]
  | some ex =>
    rw [mergeOne, h1] at h
    rw [mergeOne, h, mergeOne, h1]
    simp [jsOrS_absorb, jsOrYear_absorb]

theorem mergeEntries_file_map (fresh existing : List FlatEntry) :
    (mergeEntries fresh existing).map (fun e => e.file) = fresh.map (fun e => e.file) := by
  unfold mergeEntries
  rw [List.map_map]
  exact List.map_congr_left (fun e _ => mergeOne_file existing e)

theorem lookup_sorted_merged (fresh ex0 : List FlatEntry)
    (hnd : (fresh.map (fun e => e.file)).Nodup) (e : FlatEntry) (he : e ∈ fresh) :
    lookupFile (sortEntries (mergeEntries fresh ex0)) e.file = some (mergeOne ex0 e) := by
  have hperm : List.Perm (sortEntries (mergeEntries fresh ex0)) (mergeEntries fresh ex0) :=
    stableSort_perm cmpEntries _
  apply lookupFile_eq_some
  · exact hperm.mem_iff.mpr (List.mem_map_of_mem (mergeOne ex0) he)
  · exact mergeOne_file ex0 e
  · intro x hx hxf
    have hxL : x ∈ mergeEntries fresh ex0 := hperm.mem_iff.mp hx
    obtain ⟨e2, he2, rfl⟩ := List.mem_map.mp hxL
    have hfe : e2.file = e.file := by rw [mergeOne_file ex0 e2] at hxf; exact hxf
    have : e2 = e := List.inj_on_of_nodup_map hnd he2 he hfe
    rw [this]

theorem takeDigitRun_digits (l : List Char) : ∀ c ∈ (takeDigitRun l).1, c.isDigit = true := by
  induction l with
  | nil => simp [takeDigitRun]
  | cons a t ih =>
    by_cases h : a.isDigit = true
    · simp only [takeDigitRun, if_pos h]
      intro c hc
      rcases List.mem_cons.mp hc with h1 | h1
      · exact h1 ▸ h
      · exact ih c h1
    · simp [takeDigitRun, h]

theorem semDigitsAt_digits {l d : List Char} (h : semDigitsAt l = some d) :
    ∀ c ∈ d, c.isDigit = true := by
  match l with
  | [] => simp [semDigitsAt] at h
  | [_] => simp [semDigitsAt] at h
  | [_, _] => simp [semDigitsAt] at h
  | s :: e :: m :: rest =>
    rw [semDigitsAt] at h
    by_cases hsem : (lcEq s 's' && lcEq e 'e' && lcEq m 'm') = true
    · rw [if_pos hsem] at h
      rcases h2 : takeDigitRun (rest.dropWhile isSemSep) with ⟨d1, r⟩
      rw [h2] at h
      cases d1 with
      | nil => simp at h
      | cons c cs =>
        simp only [Option.some.injEq] at h
        intro x hx
        have := takeDigitRun_digits (rest.dropWhile isSemSep)
        rw [h2] at this
        exact this x (h ▸ hx)
    · rw [if_neg hsem] at h
      cases h

theorem semDigitsSearch_digits {l d : List Char} (h : semDigitsSearch l = some d) :
    ∀ c ∈ d, c.isDigit = true := by
  induction l with
  | nil => cases h
  | cons c cs ih =>
    rw [semDigitsSearch] at h
    rcases h2 : semDigitsAt (c :: cs) with _ | d1
    · rw [h2] at h
      exact ih h
    · rw [h2] at h
      simp only [Option.some.injEq] at h
      exact h ▸ semDigitsAt_digits h2

theorem digit_toLower (c : Char) (h : c.isDigit = true) : c.toLower = c := by
  simp only [Char.isDigit, Bool.and_eq_true, decide_eq_true_eq] at h
  have h57 : c.toNat ≤ 57 := by
    have h2 := h.2
    simp only [UInt32.le_def, BitVec.le_def] at h2
    exact h2
  unfold Char.toLower
  rw [if_neg]
  omega

theorem jsToLower_sem_digits (d : List Char) (hd : ∀ c ∈ d, c.isDigit = true) :
    jsToLower ("sem_" ++ String.mk d) = "sem_" ++ String.mk d := by
  have hdata : ("sem_" ++ String.mk d).data = 's' :: 'e' :: 'm' :: '_' :: d := rfl
  unfold jsToLower
  rw [hdata]
  simp only [List.map_cons]
  have hmap : d.map Char.toLower = d := by
    have : d.map Char.toLower = d.map id :=
      List.map_congr_left (fun c hc => digit_toLower c (hd c hc))
    rw [this, List.map_id]
  rw [hmap]
  rfl

theorem startsWithSemCI_ne_empty {s : String} (h : startsWithSemCI s = true) : s ≠ "" := by
  intro he
  subst he
  simp [startsWithSemCI] at h

theorem normalizeSem_digits {seg : String} {d : List Char}
    (hne : seg ≠ "") (hd : semDigitsSearch seg.data = some d) :
    normalizeSem seg = "sem_" ++ String.mk d := by
  rw [normalizeSem, if_neg hne, hd]
  exact jsToLower_sem_digits d (semDigitsSearch_digits hd)

theorem find?_of_findIdx? {α} {p : α → Bool} :
    ∀ {l : List α} {i : Nat}, l.findIdx? p = some i → l.find? p = l[i]? := by
  intro l
  induction l with
  | nil => intro i h; cases h
  | cons a t ih =>
    intro i h
    rw [List.findIdx?_cons] at h
    by_cases hp : p a = true
    · rw [if_pos hp] at h
      have : i = 0 := by simpa using h.symm
      subst this
      rw [List.find?_cons_of_pos t hp, List.getElem?_cons_zero]
    · rw [if_neg hp, List.findIdx?_succ] at h
      rcases Option.map_eq_some'.mp h with ⟨j, hj, hji⟩
      subst hji
      rw [List.find?_cons_of_neg t (by simpa using hp), List.getElem?_cons_succ]
      exact ih hj

theorem totalEntries_push (g : List (String × List FlatEntry)) (k : String) (e : FlatEntry) :
    totalEntries (pushGrouped g k e) = totalEntries g + 1 := by
  induction g with
  | nil => simp [pushGrouped, totalEntries]
  | cons p rest ih =>
    rcases p with ⟨k1, es⟩
    by_cases h : k1 = k
    · simp [pushGrouped, h, totalEntries]
      omega
    · simp only [pushGrouped, if_neg h]
      simp only [totalEntries, List.map_cons, List.sum_cons] at ih ⊢
      omega

theorem buildGrouped_foldl (files : List (List String × Option Sidecar))
    (g : List (String × List FlatEntry)) :
    totalEntries (files.foldl
      (fun g fp => pushGrouped g (flatSemKey fp.1) (flatEntryOf fp.1 fp.2)) g)
      = totalEntries g + files.length := by
  induction files generalizing g with
  | nil => simp
  | cons f t ih =>
    rw [List.foldl_cons, ih, totalEntries_push, List.length_cons]
    omega

/-! ### Claim theorems -/

/-- C4: In flat mode, for every freshly scanned entry whose file path equals
the file path of an entry in the previously written catalog, the merged
entry keeps the fresh `file` field and takes `title`, `description`,
`subject` and `year` from the previous entry whenever that value is truthy
(non-empty string; non-zero, non-null year), falling back to the fresh
value otherwise — so a hand-edited non-empty title survives a re-scan. -/
theorem merge_field_precedence (fresh existing : List FlatEntry) (i : Nat) (e ex : FlatEntry)
    (he : fresh[i]? = some e) (hex : lookupFile existing e.file = some ex) :
    ∃ m, (mergeEntries fresh existing)[i]? = some m ∧
      m.file = e.file ∧
      m.title = (if ex.title ≠ "" then ex.title else e.title) ∧
      m.description = (if ex.description ≠ "" then ex.description else e.description) ∧
      m.subject = (if ex.subject ≠ "" then ex.subject else e.subject) ∧
      m.year = (match ex.year with
                | some y => if y ≠ 0 then some y else e.year
                | none => e.year) := by
  have hm : mergeOne existing e =
      { e with
        title := jsOrS ex.title e.title
        description := jsOrS ex.description e.description
        year := jsOrYear ex.year e.year
        subject := jsOrS ex.subject e.subject } := by
    rw [mergeOne, hex]
  refine ⟨mergeOne existing e, ?_, mergeOne_file existing e, ?_, ?_, ?_, ?_⟩
  · rw [mergeEntries, List.getElem?_map, he, Option.map_some']
  · rw [hm]
    by_cases h : ex.title = "" <;> simp [jsOrS, h]
  · rw [hm]
    by_cases h : ex.description = "" <;> simp [jsOrS, h]
  · rw [hm]
    by_cases h : ex.subject = "" <;> simp [jsOrS, h]
  · rw [hm]
    cases hy : ex.year with
    | none => simp [jsOrYear]
    | some y => by_cases h : y = 0 <;> simp [jsOrYear, h]

/-- Sample fresh entry for the witnesses. -/
def wFresh : List FlatEntry :=
  [{ subject := "Physics", title := "mech 1", year := some 2020,
     file := "pdfs/Sem1/Physics/m1.pdf", description := "" },
   { subject := "Physics", title := "mech 2", year := none,
     file := "pdfs/Sem1/Physics/m2.pdf", description := "" }]

/-- Sample previously written catalog with a hand-edited title. -/
def wPrior : List FlatEntry :=
  [{ subject := "", title := "Edited Title", year := some 2021,
     file := "pdfs/Sem1/Physics/m2.pdf", description := "a note" }]

/-- Witness for C4 at a concrete merge: the edited title survives. -/
theorem merge_field_precedence_witness :
    ∃ m, (mergeEntries wFresh wPrior)[1]? = some m ∧
      m.file = (wFresh.get ⟨1, by decide⟩).file ∧
      m.title = (if (wPrior.get ⟨0, by decide⟩).title ≠ ""
                 then (wPrior.get ⟨0, by decide⟩).title
                 else (wFresh.get ⟨1, by decide⟩).title) ∧
      m.description = (if (wPrior.get ⟨0, by decide⟩).description ≠ ""
                       then (wPrior.get ⟨0, by decide⟩).description
                       else (wFresh.get ⟨1, by decide⟩).description) ∧
      m.subject = (if (wPrior.get ⟨0, by decide⟩).subject ≠ ""
                   then (wPrior.get ⟨0, by decide⟩).subject
                   else (wFresh.get ⟨1, by decide⟩).subject) ∧
      m.year = (match (wPrior.get ⟨0, by decide⟩).year with
                | some y => if y ≠ 0 then some y else (wFresh.get ⟨1, by decide⟩).year
                | none => (wFresh.get ⟨1, by decide⟩).year) :=
  merge_field_precedence wFresh wPrior 1 (wFresh.get ⟨1, by decide⟩) (wPrior.get ⟨0, by decide⟩)
    (by decide) (by decide)

/-- C5: Merge idempotence — merging the freshly built entry list of a
semester against the catalog that the previous run wrote for it (itself
the sorted merge of the same fresh list against any prior state) and
re-sorting reproduces that catalog exactly, provided fresh file paths are
pairwise distinct (one entry per walked file).  A second run over an
unchanged filesystem therefore writes identical catalog contents, hence
byte-identical serialized output. -/
theorem merge_idempotent (fresh ex0 : List FlatEntry)
    (hnd : (fresh.map (fun e => e.file)).Nodup) :
    sortEntries (mergeEntries fresh (sortEntries (mergeEntries fresh ex0)))
      = sortEntries (mergeEntries fresh ex0) := by
  have key : mergeEntries fresh (sortEntries (mergeEntries fresh ex0))
      = mergeEntries fresh ex0 := by
    unfold mergeEntries
    exact List.map_congr_left (fun e he =>
      mergeOne_again ex0 _ e (lookup_sorted_merged fresh ex0 hnd e he))
  rw [key]

/-- Witness for C5 at a concrete two-file semester with a prior catalog. -/
theorem merge_idempotent_witness :
    (wFresh.map (fun e => e.file)).Nodup ∧
    sortEntries (mergeEntries wFresh (sortEntries (mergeEntries wFresh wPrior)))
      = sortEntries (mergeEntries wFresh wPrior) :=
  ⟨by decide, merge_idempotent wFresh wPrior (by decide)⟩

/-- C9: An absent or unparseable sidecar yields no override and never
aborts the run: the resolver is a total function returning `none` in both
cases, and the resulting catalog entry (flat or syllabus mode) is
identical to the entry produced with no sidecar at all. -/
theorem sidecar_failsoft (parse : String → Option Sidecar) (content : Option String)
    (parts : List String)
    (h : content = none ∨ ∀ s, content = some s → parse s = none) :
    readSidecar parse content = none ∧
    flatEntryOf parts (readSidecar parse content) = flatEntryOf parts none ∧
    materialOf parts (readSidecar parse content) = materialOf parts none := by
  have hr : readSidecar parse content = none := by
    rcases h with h | h
    · rw [h]; rfl
    · cases content with
      | none => rfl
      | some s => exact h s rfl
  exact ⟨hr, by rw [hr], by rw [hr]⟩

/-- Witness for C9 with an unparseable sidecar next to a concrete file. -/
theorem sidecar_failsoft_witness :
    readSidecar (fun _ => none) (some "not json") = none ∧
    flatEntryOf ["pdfs", "Sem1", "Math", "a.pdf"] (readSidecar (fun _ => none) (some "not json"))
      = flatEntryOf ["pdfs", "Sem1", "Math", "a.pdf"] none ∧
    materialOf ["pdfs", "Sem1", "Math", "a.pdf"] (readSidecar (fun _ => none) (some "not json"))
      = materialOf ["pdfs", "Sem1", "Math", "a.pdf"] none :=
  sidecar_failsoft (fun _ => none) (some "not json") ["pdfs", "Sem1", "Math", "a.pdf"]
    (Or.inr (fun _ _ => rfl))

/-- C1 (counterexample): the Papers rule does not exist in the code.
A file under a `Papers` category with no unit segment is classified (not
excluded) in syllabus mode, and flat mode includes a file whose segment
after the subject is `Notes`, not `Papers`. -/
theorem papers_rule_counterexample :
    classifySyllabus ["pdfs", "Sem2", "Chemistry", "Papers", "midterm_2023.pdf"]
      = some { semKey := "sem_2", subject := "Chemistry", unitNum := 0,
               category := some "Papers" } ∧
    buildGrouped [(["pdfs", "Sem2", "Chemistry", "Notes", "intro.pdf"], none)]
      = [("sem_2", [{ subject := "Chemistry", title := "intro", year := none,
                      file := "pdfs/Sem2/Chemistry/Notes/intro.pdf",
                      description := "" }])] := by
  exact ⟨by decide, by decide⟩

/-- C1 (amended): flat (exam paper) mode includes every document file —
the grouping holds exactly one entry per walked file, with no Papers
filter — and syllabus mode does not exclude files under a `Papers`
category: a unit-less file under a semester segment with a subject present
is classified as unit 0 with the joined intermediate segments (such as
`Papers`) as its category, so `Sem2/Chemistry/Papers/midterm_2023.pdf`
appears in flat-mode output for `sem_2` and also in syllabus-mode output
for `sem_2` under subject `Chemistry`, unit 0, category `Papers`. -/
theorem papers_rule_amended :
    (∀ files : List (List String × Option Sidecar),
        totalEntries (buildGrouped files) = files.length) ∧
    flatSemKey ["pdfs", "Sem2", "Chemistry", "Papers", "midterm_2023.pdf"] = "sem_2" ∧
    syllabusRun [(["pdfs", "Sem2", "Chemistry", "Papers", "midterm_2023.pdf"], none)]
      = [("sem_2",
          [{ subject := "Chemistry",
             units := [{ unit := 0, category := some "Papers",
                         title := "Papers: Syllabus",
                         materials := [{ title := "midterm 2023",
                                         file := "pdfs/Sem2/Chemistry/Papers/midterm_2023.pdf",
                                         description := "" }] }] }])] := by
  refine ⟨fun files => ?_, by decide, by decide⟩
  rw [buildGrouped, buildGrouped_foldl]
  simp [totalEntries]

/-- C2 (counterexample): the unit-group display title is not a function of
only unit number and category: the spec's own end-to-end example yields
title `Mechanics Notes` (the first material's title), not `Unit 1`. -/
theorem unit_title_counterexample :
    syllabusRun [(["pdfs", "Sem4", "Physics", "Unit_1", "Mechanics_Notes.pdf"], none)]
      = [("sem_4",
          [{ subject := "Physics",
             units := [{ unit := 1, category := none, title := "Mechanics Notes",
                         materials := [{ title := "Mechanics Notes",
                                         file := "pdfs/Sem4/Physics/Unit_1/Mechanics_Notes.pdf",
                                         description := "" }] }] }])] ∧
    "Mechanics Notes" ≠ "Unit 1" := by
  exact ⟨by decide, by decide⟩

/-- C2 (amended): the display title of a syllabus unit group is derived
from its materials: the base title is `Syllabus` when the unit number is
0 and otherwise the title of the alphabetically first material (or
`Unit <n>` with no materials); a non-empty category is prepended as
`<category>: ` unless the base already starts with it case-insensitively.
So the group for `pdfs/Sem4/Physics/Unit_1/Mechanics_Notes.pdf` is titled
`Mechanics Notes`, and a unit-0 group with category `Papers` is titled
`Papers: Syllabus`. -/
theorem unit_title_amended :
    (∀ ms : List Material, unitDisplayTitle 0 none ms = "Syllabus") ∧
    (∀ (n : Nat) (ms : List Material) (m : Material), n ≠ 0 →
        (sortMaterials ms).head? = some m → unitDisplayTitle n none ms = m.title) ∧
    (∀ ms : List Material, unitDisplayTitle 0 (some "Papers") ms = "Papers: Syllabus") ∧
    unitDisplayTitle 1 none
      [{ title := "Mechanics Notes", file := "pdfs/Sem4/Physics/Unit_1/Mechanics_Notes.pdf",
         description := "" }] = "Mechanics Notes" := by
  refine ⟨fun ms => ?_, fun n ms m hn hm => ?_, fun ms => ?_, by decide⟩
  · simp [unitDisplayTitle, truthy]
  · rw [unitDisplayTitle]
    simp only [hm, if_neg hn]
    simp [truthy]
  · simp [unitDisplayTitle, truthy]
    decide

/-- Witness for C2's amended general clause at a concrete two-material
group: the alphabetically first title wins. -/
theorem unit_title_amended_witness :
    unitDisplayTitle 2 none
      [{ title := "Waves", file := "pdfs/Sem4/Physics/Unit_2/Waves.pdf", description := "" },
       { title := "Optics", file := "pdfs/Sem4/Physics/Unit_2/Optics.pdf", description := "" }]
      = "Optics" := by
  have h := unit_title_amended.2.1 2
    [{ title := "Waves", file := "pdfs/Sem4/Physics/Unit_2/Waves.pdf", description := "" },
     { title := "Optics", file := "pdfs/Sem4/Physics/Unit_2/Optics.pdf", description := "" }]
    { title := "Optics", file := "pdfs/Sem4/Physics/Unit_2/Optics.pdf", description := "" }
    (by decide) (by decide)
  exact h

/-- C3 (counterexample): a semester whose catalog exists from a previous
run but has no entries in the current scan is not rewritten: the write
phase only visits currently scanned semester keys, so `sem_9` below is
absent from the written set (the claim requires it rewritten with zero
entries). -/
theorem stale_semesters_counterexample :
    (writeFlat [("sem_1", wFresh)]
        (fun k => if k = "sem_9" then some wPrior else none)).map Prod.fst
      = ["sem_1"] ∧
    "sem_9" ∉ (writeFlat [("sem_1", wFresh)]
        (fun k => if k = "sem_9" then some wPrior else none)).map Prod.fst := by
  exact ⟨by decide, by decide⟩

/-- C3 (amended): the flat-mode write phase writes exactly the semesters
of the current scan's grouping — one output file per currently scanned
semester key, in grouping order; a semester with a stale catalog but no
current entries is left untouched. -/
theorem stale_semesters_amended :
    ∀ (grouped : List (String × List FlatEntry))
      (prior : String → Option (List FlatEntry)),
      (writeFlat grouped prior).map Prod.fst = grouped.map Prod.fst := by
  intro grouped prior
  rw [writeFlat, List.map_map]
  rfl

theorem jsFindIdx_ne {p : String → Bool} {l : List String} (h : jsFindIdx p l ≠ -1) :
    ∃ i : Nat, l.findIdx? p = some i ∧ jsFindIdx p l = (i : Int) := by
  rw [jsFindIdx] at h ⊢
  cases hf : l.findIdx? p with
  | none => rw [hf] at h; exact absurd rfl h
  | some i => exact ⟨i, rfl, rfl⟩

/-- C6 (amended): whenever the first segment starting with `sem`
(case-insensitively) — the segment both modes select — contains the
semester pattern (`sem`, optional separators, digits), the derived key is
the canonical `sem_<digits>` in both modes; in particular `Sem_4`, `sem4`
and `SEM-4` in that position all yield `sem_4`.  (An earlier segment
starting with `sem` but without digits is selected instead and yields a
fallback key, which is what the counterexample exhibits.) -/
theorem semkey_canonical_amended :
    (∀ (parts : List String) (i : Nat) (seg : String) (d : List Char),
        parts.findIdx? startsWithSemCI = some i →
        parts[i]? = some seg →
        semDigitsSearch seg.data = some d →
        flatSemKey parts = "sem_" ++ String.mk d ∧
        sylSemKey parts = "sem_" ++ String.mk d) ∧
    (flatSemKey ["pdfs", "Sem_4", "Math", "f.pdf"] = "sem_4" ∧
     sylSemKey ["pdfs", "Sem_4", "Math", "f.pdf"] = "sem_4") ∧
    (flatSemKey ["pdfs", "sem4", "Math", "f.pdf"] = "sem_4" ∧
     sylSemKey ["pdfs", "sem4", "Math", "f.pdf"] = "sem_4") ∧
    (flatSemKey ["pdfs", "SEM-4", "Math", "f.pdf"] = "sem_4" ∧
     sylSemKey ["pdfs", "SEM-4", "Math", "f.pdf"] = "sem_4") := by
  refine ⟨fun parts i seg d hidx hget hd => ?_, by decide, by decide, by decide⟩
  have hfind : parts.find? startsWithSemCI = some seg := by
    rw [find?_of_findIdx? hidx, hget]
  have hp : startsWithSemCI seg = true := List.find?_some hfind
  have hne : seg ≠ "" := startsWithSemCI_ne_empty hp
  have hkey : normalizeSem seg = "sem_" ++ String.mk d := normalizeSem_digits hne hd
  constructor
  · rw [flatSemKey, flatSemSeg, hfind]
    simp only [jsOrStr, if_neg hne]
    exact hkey
  · have hsi : sylSemIndex parts = (i : Int) := by
      rw [sylSemIndex, jsFindIdx, hidx]
    have hgs : jsGetStr parts (i : Int) = some seg := by
      rw [jsGetStr, if_neg (by omega : ¬((i : Int) < 0))]
      simpa using hget
    rw [sylSemKey, hsi, if_neg (by omega : ¬((i : Int) = -1)), hgs]
    exact hkey

/-- Witness for C6's amended general clause at a concrete path whose
semester segment uses a space separator. -/
theorem semkey_canonical_witness :
    flatSemKey ["pdfs", "Sem 4", "Math", "f.pdf"] = "sem_" ++ String.mk ['4'] ∧
    sylSemKey ["pdfs", "Sem 4", "Math", "f.pdf"] = "sem_" ++ String.mk ['4'] :=
  semkey_canonical_amended.1 ["pdfs", "Sem 4", "Math", "f.pdf"] 1 "Sem 4" ['4']
    (by decide) rfl (by decide)

/-- C6 (counterexample): a path containing a segment that matches the
semester pattern (`Sem_4`) can still derive a non-canonical key, because
an earlier segment starting with `sem` but without digits (`Semfoo`) is
selected by both modes. -/
theorem semkey_counterexample :
    semDigitsSearch "Sem_4".data = some ['4'] ∧
    flatSemKey ["pdfs", "Semfoo", "Sem_4", "f.pdf"] = "sem_semfoo" ∧
    sylSemKey ["pdfs", "Semfoo", "Sem_4", "f.pdf"] = "sem_semfoo" ∧
    "sem_semfoo" ≠ "sem_4" := by
  exact ⟨by decide, by decide, by decide, by decide⟩

/-- C7 (amended): in syllabus mode the unit segment is the first segment
anywhere in the path matching the unit pattern — the `findIndex` runs over
all segments, including the subject segment and segments before the
semester — and the classified unit number is parsed from that segment. -/
theorem unit_segment_amended (parts : List String) (i : Nat) (seg : String) (n : Nat)
    (hidx : parts.findIdx? unitSegTest = some i)
    (hget : parts[i]? = some seg)
    (hn : normalizeUnit seg = some n) :
    ∃ c, classifySyllabus parts = some c ∧ c.unitNum = n := by
  have hui : sylUnitIndex parts = (i : Int) := by
    rw [sylUnitIndex, jsFindIdx, hidx]
  have hgs : jsGetStr parts (i : Int) = some seg := by
    rw [jsGetStr, if_neg (by omega : ¬((i : Int) < 0))]
    simpa using hget
  have h1 : (sylUnitCat parts).1 = some n := by
    simp only [sylUnitCat, hui, hgs]
    rw [if_pos (by omega : (i : Int) ≠ -1)]
    simpa using hn
  exact ⟨{ semKey := sylSemKey parts, subject := sylSubject parts, unitNum := n,
           category := (sylUnitCat parts).2 },
         by rw [classifySyllabus, h1], rfl⟩

/-- Witness for C7 at a path whose only unit-pattern segment follows the
subject. -/
theorem unit_segment_witness :
    ∃ c, classifySyllabus ["pdfs", "Sem2", "Math", "Unit_3", "f.pdf"] = some c ∧
      c.unitNum = 3 :=
  unit_segment_amended ["pdfs", "Sem2", "Math", "Unit_3", "f.pdf"] 3 "Unit_3" 3
    (by decide) rfl (by decide)

/-- C7 (counterexample): a subject segment matching the unit pattern
(`U2_Maths`) determines the unit number (2), not the unit folder after it
(`Unit_3`), contradicting the claim that only segments strictly after the
subject are considered. -/
theorem unit_segment_counterexample :
    classifySyllabus ["pdfs", "Sem2", "U2_Maths", "Unit_3", "f.pdf"]
      = some { semKey := "sem_2", subject := "U2 Maths", unitNum := 2, category := none } ∧
    (2 : Nat) ≠ 3 := by
  exact ⟨by decide, by decide⟩

/-- C8 (amended): the title guess strips the `.pdf` extension
case-insensitively, removes only the FIRST standalone 4-digit year token —
word boundaries treat the underscore as a word character, so an
underscore-adjacent year is kept, and a name with both `2022` and `2023`
standalone keeps `2023` — collapses underscore/hyphen runs and dot runs
not between digits into single spaces, trims, and the raw filename is
used when the result is empty. -/
theorem title_guess_amended :
    cleanTitle "exam 2022 2023.pdf" = "exam 2023" ∧
    cleanTitle "midterm_2023.pdf" = "midterm 2023" ∧
    cleanTitle "notes-2021 final.PDF" = "notes final" ∧
    cleanTitle "a_b-c.pdf" = "a b c" ∧
    cleanTitle "v1.2.pdf" = "v1.2" ∧
    cleanTitle "2024.pdf" = "" ∧
    (flatEntryOf ["pdfs", "Sem1", "Math", "2024.pdf"] none).title = "2024.pdf" ∧
    (materialOf ["pdfs", "Sem1", "Math", "2024.pdf"] none).title = "2024.pdf" := by
  exact ⟨by decide, by decide, by decide, by decide, by decide, by decide, by decide, by decide⟩

/-- C8 (counterexample): the year-removal regex has no global flag, so a
filename containing both `2022` and `2023` as standalone tokens loses only
the first: the claim predicts `exam`, the code produces `exam 2023`. -/
theorem title_guess_counterexample :
    cleanTitle "exam 2022 2023.pdf" = "exam 2023" ∧ "exam 2023" ≠ "exam" := by
  exact ⟨by decide, by decide⟩

/-- C10: in syllabus mode a file with no segment starting with `sem` and
no unit-pattern segment is silently excluded, and whenever no unit-pattern
segment exists the unit-0 default is only assigned in the presence of a
semester segment with a truthy following segment. -/
theorem syllabus_exclusion (parts : List String) :
    ((∀ p ∈ parts, startsWithSemCI p = false) →
     (∀ p ∈ parts, unitSegTest p = false) →
     classifySyllabus parts = none) ∧
    ((∀ p ∈ parts, unitSegTest p = false) →
     ∀ c, classifySyllabus parts = some c →
       c.unitNum = 0 ∧ ∃ i : Nat, parts.findIdx? startsWithSemCI = some i ∧
         truthy (jsGetStr parts ((i : Int) + 1)) = true) := by
  constructor
  · intro hsem hunit
    have hsi : sylSemIndex parts = -1 := by
      rw [sylSemIndex, jsFindIdx, List.findIdx?_eq_none_iff.mpr hsem]
    have hui : sylUnitIndex parts = -1 := by
      rw [sylUnitIndex, jsFindIdx, List.findIdx?_eq_none_iff.mpr hunit]
    have h1 : (sylUnitCat parts).1 = none := by
      simp [sylUnitCat, hui, hsi]
    rw [classifySyllabus, h1]
  · intro hunit c hc
    have hui : sylUnitIndex parts = -1 := by
      rw [sylUnitIndex, jsFindIdx, List.findIdx?_eq_none_iff.mpr hunit]
    by_cases hb : sylSemIndex parts ≠ -1 ∧ truthy (jsGetStr parts (sylSemIndex parts + 1)) = true
    · have h1 : (sylUnitCat parts).1 = some 0 := by
        simp [sylUnitCat, hui, hb]
      rw [classifySyllabus, h1] at hc
      simp only [Option.some.injEq] at hc
      refine ⟨by rw [← hc], ?_⟩
      obtain ⟨hne1, htr⟩ := hb
      obtain ⟨i, hidx, hji⟩ := jsFindIdx_ne hne1
      have hji2 : sylSemIndex parts = (i : Int) := by rw [sylSemIndex]; exact hji
      refine ⟨i, hidx, ?_⟩
      rw [← hji2]
      exact htr
    · have h1 : (sylUnitCat parts).1 = none := by
        simp [sylUnitCat, hui, hb]
      rw [classifySyllabus, h1] at hc
      cases hc

/-- Witness for C10 at a path with neither a semester-like segment nor a
unit-pattern segment: the file is excluded from syllabus output. -/
theorem syllabus_exclusion_witness :
    classifySyllabus ["pdfs", "Misc", "notes.pdf"] = none :=
  (syllabus_exclusion ["pdfs", "Misc", "notes.pdf"]).1 (by decide) (by decide)
